import Mathlib

/-!
Verification of the chunking library in `01-why-ai-forgets`
(`naive_chunking_problems.py` and `quick_fixes.py`).

Python strings are modelled as `List Char`; `len` is `List.length`,
slicing is `take`/`drop`, and `str.strip` / `str.rstrip` strip the
ASCII whitespace characters matched by Python's `\s` (space, tab,
newline, carriage return, vertical tab, form feed).  Unicode-only
whitespace is not modelled; all inputs exercised here are ASCII.

Each definition is a direct translation of the corresponding Python
function; loops with accumulator variables become `List.foldl` over an
explicit state, and `while` loops become fuel-indexed recursion where
the fuel is provably sufficient for the parameter ranges the claims
quantify over.
-/

/-- ASCII characters matched by Python's `\s` and stripped by `str.strip()`. -/
def isPySpace (c : Char) : Bool :=
  c = ' ' || c = '\t' || c = '\n' || c = '\r' || c = '\x0b' || c = '\x0c'

/-- The sentence-terminal characters of the regex `(?<=[.!?])\s+`. -/
def isTerm (c : Char) : Bool :=
  c = '.' || c = '!' || c = '?'

/-- `str.rstrip()`. -/
def pyRStrip (l : List Char) : List Char :=
  (l.reverse.dropWhile isPySpace).reverse

/-- `str.strip()`. -/
def pyStrip (l : List Char) : List Char :=
  ((l.dropWhile isPySpace).reverse.dropWhile isPySpace).reverse

/-- The non-whitespace content of a string, used to state the
whitespace-insensitive round-trip property. -/
def nonWsOf (l : List Char) : List Char :=
  l.filter (fun c => !isPySpace c)

/-- Head-of-list whitespace test, used by the sentence splitter to check
that the regex separator `\s+` can start at the next position. -/
def headIsSpace : List Char → Bool
  | [] => false
  | c :: _ => isPySpace c

/-- Head-of-list newline test, used by the paragraph splitter. -/
def headIsNewline : List Char → Bool
  | [] => false
  | c :: _ => c = '\n'

/-- Scanner for `re.split(r'(?<=[.!?])\s+', text)`.
`skipping` is true while the scanner is inside a separator run of
whitespace (which the regex consumes greedily); `acc` holds the
characters of the current piece in reverse. -/
def sentGo : Bool → List Char → List Char → List (List Char)
  | _, acc, [] => [acc.reverse]
  | skipping, acc, c :: rest =>
    if skipping && isPySpace c then sentGo true acc rest
    else if isTerm c && headIsSpace rest then (c :: acc).reverse :: sentGo true [] rest
    else sentGo false (c :: acc) rest

/-- `re.split(r'(?<=[.!?])\s+', text)` from `SentenceAwareChunker.chunk`. -/
def sentSplit (text : List Char) : List (List Char) :=
  sentGo false [] text

/-- Scanner for `re.split(r'\n\n+', text)`: split on maximal runs of
two or more newlines. -/
def paraGo : Bool → List Char → List Char → List (List Char)
  | _, acc, [] => [acc.reverse]
  | skipping, acc, c :: rest =>
    if skipping && c = '\n' then paraGo true acc rest
    else if c = '\n' && headIsNewline rest then acc.reverse :: paraGo true [] rest
    else paraGo false (c :: acc) rest

/-- `re.split(r'\n\n+', text)` from `ParagraphAwareChunker.chunk`. -/
def paraSplit (text : List Char) : List (List Char) :=
  paraGo false [] text

/-- One iteration of the sentence loop in `SentenceAwareChunker.chunk`.
The state is `(chunks, current_chunk)`.  The branch structure mirrors
the Python `if/elif/else` exactly, including the unconditional
`" " + sentence` join in the between-target-and-max branch. -/
def scStep (target maxs : Nat) (st : List (List Char) × List Char) (s : List Char) :
    List (List Char) × List Char :=
  if maxs < st.2.length + s.length ∧ st.2 ≠ [] then
    (st.1 ++ [pyStrip st.2], s)
  else if st.2.length + s.length ≤ target then
    (st.1, if st.2 = [] then s else st.2 ++ [' '] ++ s)
  else if st.2.length + s.length ≤ maxs then
    (st.1, st.2 ++ [' '] ++ s)
  else if st.2 ≠ [] then
    (st.1 ++ [pyStrip st.2], s)
  else
    (st.1, s)

/-- `SentenceAwareChunker.chunk` (quick_fixes.py, lines 52-81). -/
def SentenceAwareChunker.chunk (target maxs : Nat) (text : List Char) : List (List Char) :=
  let st := (sentSplit text).foldl (scStep target maxs) ([], [])
  if st.2 ≠ [] then st.1 ++ [pyStrip st.2] else st.1

/-- One iteration of the inner `for pc in para_chunks` loop of
`ParagraphAwareChunker.chunk` (and, with a whole paragraph as the single
piece, the outer fit-or-flush rule has the same shape). -/
def pcInnerStep (target : Nat) (st : List (List Char) × List Char) (pc : List Char) :
    List (List Char) × List Char :=
  if st.2.length + pc.length ≤ target then
    (st.1, if st.2 = [] then pc else st.2 ++ ['\n', '\n'] ++ pc)
  else
    ((if st.2 ≠ [] then st.1 ++ [st.2] else st.1), pc)

/-- One iteration of the paragraph loop in `ParagraphAwareChunker.chunk`.
The oversized-paragraph branch calls `SentenceAwareChunker(self.target_size)`,
whose `max_size` is therefore the Python default `1200`. -/
def paStep (target : Nat) (st : List (List Char) × List Char) (para : List Char) :
    List (List Char) × List Char :=
  let p := pyStrip para
  if p = [] then st
  else if target < p.length then
    (SentenceAwareChunker.chunk target 1200 p).foldl (pcInnerStep target) st
  else if st.2.length + p.length ≤ target then
    (st.1, if st.2 = [] then p else st.2 ++ ['\n', '\n'] ++ p)
  else
    ((if st.2 ≠ [] then st.1 ++ [st.2] else st.1), p)

/-- `ParagraphAwareChunker.chunk` (quick_fixes.py, lines 90-125). -/
def ParagraphAwareChunker.chunk (target : Nat) (text : List Char) : List (List Char) :=
  let st := (paraSplit text).foldl (paStep target) ([], [])
  if st.2 ≠ [] then st.1 ++ [st.2] else st.1

/-- Fuel-indexed translation of the comprehension
`[text[i:i+chunk_size] for i in range(0, len(text), chunk_size)]`.
For `size ≥ 1` the fuel `text.length` is sufficient since every step
removes at least one character. -/
def naiveGo : Nat → Nat → List Char → List (List Char)
  | 0, _, _ => []
  | _ + 1, _, [] => []
  | fuel + 1, size, c :: cs => (c :: cs).take size :: naiveGo fuel size ((c :: cs).drop size)

/-- `NaiveChunker.chunk` (naive_chunking_problems.py, lines 26-32). -/
def NaiveChunker.chunk (size : Nat) (text : List Char) : List (List Char) :=
  naiveGo text.length size text

/-- Fuel-indexed translation of the `while start < len(text)` loop of
`OverlapChunker.chunk`.  For `overlap < chunk_size` each iteration
advances `start` by at least one, so fuel `text.length + 1` is
sufficient; for `overlap ≥ chunk_size` the Python loop does not
terminate, which no claim exercises. -/
def overlapGo : Nat → Nat → Nat → List Char → Nat → List (List Char)
  | 0, _, _, _, _ => []
  | fuel + 1, width, overlap, text, start =>
    if start < text.length then
      if min (start + width) text.length = text.length then
        [(text.drop start).take (min (start + width) text.length - start)]
      else
        (text.drop start).take (min (start + width) text.length - start) ::
          overlapGo fuel width overlap text (min (start + width) text.length - overlap)
    else []

/-- `OverlapChunker.chunk` (quick_fixes.py, lines 28-42). -/
def OverlapChunker.chunk (width overlap : Nat) (text : List Char) : List (List Char) :=
  overlapGo (text.length + 1) width overlap text 0

/-- Python `s[-n:]` for `n ≥ 1` (the trailing `n` characters), used to
state the overlap-sharing property. -/
def lastN (n : Nat) (l : List Char) : List Char :=
  l.drop (l.length - n)

/-- `ChunkProblem` (naive_chunking_problems.py, lines 11-17);
`excerpt` models the source field `example`, whose name is a Lean keyword. -/
structure ChunkProblem where
  chunk_index : Nat
  problem_type : List Char
  description : List Char
  excerpt : List Char
deriving DecidableEq, Repr

/-- `self.sentence_endings` of `ChunkAnalyzer`. -/
def sentence_endings : List Char := ['.', '!', '?']

/-- `self.reference_phrases` of `ChunkAnalyzer`. -/
def reference_phrases : List (List Char) :=
  ["as mentioned above".data, "see table".data, "following the previous".data,
   "as described earlier".data, "refer to section".data]

/-- The tuple of list-marker prefixes tested by `analyze_chunks`. -/
def list_markers : List (List Char) :=
  ["- ".data, "* ".data, "• ".data, "1. ".data, "2. ".data, "3. ".data]

/-- Python `s.endswith(tuple_of_single_chars)`: the last character is one
of the given characters (false on the empty string). -/
def endsWithAny (l : List Char) (cs : List Char) : Bool :=
  match l.getLast? with
  | some c => cs.contains c
  | none => false

/-- Python `s.startswith(tuple_of_prefixes)`. -/
def startsWithAny (l : List Char) (ps : List (List Char)) : Bool :=
  ps.any (fun p => p.isPrefixOf l)

/-- Python `hay.find(needle)`: index of the first occurrence, `none` for `-1`. -/
def findSub : List Char → List Char → Option Nat
  | hay, needle =>
    if needle.isPrefixOf hay then some 0
    else
      match hay with
      | [] => none
      | _ :: rest => (findSub rest needle).map (· + 1)

/-- Python `needle in hay`. -/
def containsSub (hay needle : List Char) : Bool :=
  (findSub hay needle).isSome

/-- `ChunkAnalyzer._extract_context` (naive_chunking_problems.py, lines 84-91). -/
def extractContext (text phrase : List Char) (csize : Nat := 30) : List Char :=
  match findSub (text.map Char.toLower) phrase with
  | none => []
  | some idx =>
    "...".data ++ ((text.drop (idx - csize)).take
      (min text.length (idx + phrase.length + csize) - (idx - csize))) ++ "...".data

/-- The mid-sentence-break check of `analyze_chunks` for chunk `i`:
`i > 0 and not chunks[i-1].rstrip().endswith(('.', '!', '?'))`. -/
def semanticBreakProbs (chunks : List (List Char)) (i : Nat) : List ChunkProblem :=
  if 0 < i ∧ endsWithAny (pyRStrip (chunks.getD (i - 1) [])) sentence_endings = false then
    [⟨i, "Semantic Break".data, "Chunk starts mid-sentence".data,
      (chunks.getD i []).take 50 ++ "...".data⟩]
  else []

/-- The broken-reference check of `analyze_chunks` for chunk `i`:
one problem per reference phrase contained in `chunk.lower()`. -/
def referenceLossProbs (chunks : List (List Char)) (i : Nat) : List ChunkProblem :=
  reference_phrases.filterMap (fun phrase =>
    if containsSub ((chunks.getD i []).map Char.toLower) phrase then
      some ⟨i, "Reference Loss".data,
        "Contains reference '".data ++ phrase ++
          "' but context may be in different chunk".data,
        extractContext (chunks.getD i []) phrase⟩
    else none)

/-- The isolated-list-item check of `analyze_chunks` for chunk `i`. -/
def structuralProbs (chunks : List (List Char)) (i : Nat) : List ChunkProblem :=
  if startsWithAny (pyStrip (chunks.getD i [])) list_markers ∧
      (i = 0 ∨ endsWithAny (pyRStrip (chunks.getD (i - 1) [])) [':'] = false) then
    [⟨i, "Structural Destruction".data, "List item separated from header".data,
      (chunks.getD i []).take 50 ++ "...".data⟩]
  else []

/-- The body of the `for i, chunk in enumerate(chunks)` loop of
`analyze_chunks`: the three checks, in source order. -/
def analyzeAt (chunks : List (List Char)) (i : Nat) : List ChunkProblem :=
  semanticBreakProbs chunks i ++ referenceLossProbs chunks i ++ structuralProbs chunks i

/-- `ChunkAnalyzer.analyze_chunks` (naive_chunking_problems.py, lines 48-82). -/
def ChunkAnalyzer.analyze_chunks (chunks : List (List Char)) : List ChunkProblem :=
  (List.range chunks.length).flatMap (analyzeAt chunks)

/-- Follows the words of claim C5: a `ParagraphAwareChunker.chunk` whose
oversized-paragraph fallback invokes the sentence splitter with
`target_size` as both the target size and the hard maximum size.
Compared against the source translation, which keeps the default
`max_size = 1200`. -/
def paStepClaimC5 (target : Nat) (st : List (List Char) × List Char) (para : List Char) :
    List (List Char) × List Char :=
  let p := pyStrip para
  if p = [] then st
  else if target < p.length then
    (SentenceAwareChunker.chunk target target p).foldl (pcInnerStep target) st
  else if st.2.length + p.length ≤ target then
    (st.1, if st.2 = [] then p else st.2 ++ ['\n', '\n'] ++ p)
  else
    ((if st.2 ≠ [] then st.1 ++ [st.2] else st.1), p)

/-- Follows the words of claim C5 (see `paStepClaimC5`). -/
def paraChunkClaimC5 (target : Nat) (text : List Char) : List (List Char) :=
  let st := (paraSplit text).foldl (paStepClaimC5 target) ([], [])
  if st.2 ≠ [] then st.1 ++ [st.2] else st.1

/-- The list of pieces the paragraph chunker merges: each paragraph is
stripped; empty ones vanish, oversized ones are replaced by their
sentence-level chunks, the rest stand for themselves. -/
def paraPieceOf (target : Nat) (para : List Char) : List (List Char) :=
  let p := pyStrip para
  if p = [] then []
  else if target < p.length then SentenceAwareChunker.chunk target 1200 p
  else [p]

/-- Restructured paragraph chunker used to state the amended claim C5:
flatten all pieces first, then run the single fit-or-flush merge. -/
def paraChunkViaPieces (target : Nat) (text : List Char) : List (List Char) :=
  let st := ((paraSplit text).flatMap (paraPieceOf target)).foldl (pcInnerStep target) ([], [])
  if st.2 ≠ [] then st.1 ++ [st.2] else st.1

lemma dropWhile_idem (p : Char → Bool) (l : List Char) :
    (l.dropWhile p).dropWhile p = l.dropWhile p := by
  induction l with
  | nil => rfl
  | cons c l ih =>
    by_cases h : p c
    · simp [List.dropWhile_cons, h, ih]
    · simp [List.dropWhile_cons, h]

lemma head_dropWhile_false (p : Char → Bool) (l : List Char) (c : Char)
    (h : (l.dropWhile p).head? = some c) : p c = false := by
  induction l with
  | nil => simp at h
  | cons d l ih =>
    rw [List.dropWhile_cons] at h
    split_ifs at h with hd
    · exact ih h
    · simp only [List.head?_cons, Option.some.injEq] at h
      rw [← h]
      simp [Bool.not_eq_true] at hd
      exact hd

lemma dropWhile_eq_self_of_head (p : Char → Bool) (l : List Char)
    (h : ∀ c, l.head? = some c → p c = false) : l.dropWhile p = l := by
  cases l with
  | nil => rfl
  | cons c l => simp [List.dropWhile_cons, h c rfl]

lemma getLast?_dropWhile (p : Char → Bool) (l : List Char)
    (h : l.dropWhile p ≠ []) : (l.dropWhile p).getLast? = l.getLast? := by
  induction l with
  | nil => simp at h
  | cons c l ih =>
    rw [List.dropWhile_cons]
    rw [List.dropWhile_cons] at h
    split_ifs at h with hc
    · rw [if_pos hc, ih h]
      have hl : l ≠ [] := by
        intro he
        rw [he] at h
        exact h rfl
      cases l with
      | nil => exact absurd rfl hl
      | cons d t => rw [List.getLast?_cons_cons]
    · rw [if_neg hc]

lemma pyStrip_idem (l : List Char) : pyStrip (pyStrip l) = pyStrip l := by
  set X := l.dropWhile isPySpace with hX
  set Y := X.reverse.dropWhile isPySpace with hY
  have hstrip : pyStrip l = Y.reverse := rfl
  rw [hstrip]
  have h1 : Y.reverse.dropWhile isPySpace = Y.reverse := by
    apply dropWhile_eq_self_of_head
    intro c hc
    rw [List.head?_reverse] at hc
    by_cases hYnil : Y = []
    · rw [hYnil] at hc
      simp at hc
    · rw [hY, getLast?_dropWhile _ _ (hY ▸ hYnil), List.getLast?_reverse] at hc
      exact head_dropWhile_false isPySpace l c hc
  show ((Y.reverse.dropWhile isPySpace).reverse.dropWhile isPySpace).reverse = Y.reverse
  rw [h1, List.reverse_reverse, hY, dropWhile_idem]

lemma scFold_stripped (target maxs : Nat) (l : List (List Char)) :
    ∀ st : List (List Char) × List Char, (∀ c ∈ st.1, pyStrip c = c) →
      ∀ c ∈ (l.foldl (scStep target maxs) st).1, pyStrip c = c := by
  induction l with
  | nil => exact fun st h => h
  | cons s l ih =>
    intro st h
    rw [List.foldl_cons]
    apply ih
    intro c hc
    rw [scStep] at hc
    split_ifs at hc <;>
      first
        | exact h c hc
        | · rcases List.mem_append.1 hc with hc | hc
            · exact h c hc
            · rw [List.mem_singleton] at hc
              rw [hc, pyStrip_idem]

/-- C10: every chunk returned by `SentenceAwareChunker.chunk` carries no
leading or trailing whitespace: it equals its own stripped form. -/
theorem C10_chunks_trimmed (target maxs : Nat) (text : List Char)
    (h1 : 0 < target) (h2 : target ≤ maxs) :
    ∀ c ∈ SentenceAwareChunker.chunk target maxs text, pyStrip c = c := by
  intro c hc
  rw [SentenceAwareChunker.chunk] at hc
  have hfold := scFold_stripped target maxs (sentSplit text) ([], []) (by simp)
  split_ifs at hc with hcur
  · rcases List.mem_append.1 hc with hc | hc
    · exact hfold c hc
    · rw [List.mem_singleton] at hc
      rw [hc, pyStrip_idem]
  · exact hfold c hc

/-- Witness for C10 at a concrete input. -/
theorem C10_witness :
    0 < 3 ∧ 3 ≤ 4 ∧ "a. b.".data ∈ SentenceAwareChunker.chunk 3 4 "a. b.".data ∧
      pyStrip "a. b.".data = "a. b.".data :=
  ⟨by decide, by decide, by decide,
   C10_chunks_trimmed 3 4 "a. b.".data (by decide) (by decide) "a. b.".data (by decide)⟩

/-- C3: on `"Sentence one. Sentence two. Sentence three."` with
`target_size = 15` and `max_size = 20` the sentence chunker returns the
three sentences as separate chunks; any two sentences joined would
exceed `max_size`. -/
theorem C3_scenarioA :
    SentenceAwareChunker.chunk 15 20 "Sentence one. Sentence two. Sentence three.".data =
      ["Sentence one.".data, "Sentence two.".data, "Sentence three.".data] ∧
    20 < "Sentence one.".data.length + "Sentence two.".data.length ∧
    20 < "Sentence two.".data.length + "Sentence three.".data.length := by
  refine ⟨by decide, by decide, by decide⟩

/-- Counterexample to C1 as stated: with `target_size = 5`, `max_size = 7`
and text `"abc. de."`, no single sentence exceeds `max_size`, yet the
only chunk produced has length 8 > 7 (the joining space overshoots). -/
theorem C1_counterexample :
    SentenceAwareChunker.chunk 5 7 "abc. de.".data = ["abc. de.".data] ∧
    ("abc. de.".data).length = 8 ∧
    sentSplit "abc. de.".data = ["abc.".data, "de.".data] ∧
    (∀ s ∈ sentSplit "abc. de.".data, s.length ≤ 7) := by
  refine ⟨by decide, by decide, by decide, by decide⟩

/-- Counterexample to C2 as stated: the empty text has length ≤ width
but yields zero chunks, not one. -/
theorem C2_counterexample :
    (3 : Nat) < 10 ∧ (([] : List Char)).length ≤ 10 ∧
    OverlapChunker.chunk 10 3 ([] : List Char) = [] ∧
    (OverlapChunker.chunk 10 3 ([] : List Char)).length ≠ 1 := by
  refine ⟨by decide, by decide, by decide, by decide⟩

/-- Counterexample to C5 as stated: the fallback sentence splitter keeps
the default `max_size = 1200`, so the code's output differs from the
claimed target-as-max behaviour already on `"abc. def. ghi."` with
`target_size = 5`. -/
theorem C5_counterexample :
    ParagraphAwareChunker.chunk 5 "abc. def. ghi.".data = ["abc. def. ghi.".data] ∧
    paraChunkClaimC5 5 "abc. def. ghi.".data = ["abc.".data, "def.".data, "ghi.".data] ∧
    ParagraphAwareChunker.chunk 5 "abc. def. ghi.".data ≠
      paraChunkClaimC5 5 "abc. def. ghi.".data := by
  refine ⟨by decide, by decide, by decide⟩

/-- Counterexample to C6 as stated: `"   "` is a non-empty text on which
`ParagraphAwareChunker.chunk` returns the empty chunk sequence. -/
theorem C6_counterexample :
    "   ".data ≠ ([] : List Char) ∧ ParagraphAwareChunker.chunk 1000 "   ".data = [] := by
  refine ⟨by decide, by decide⟩

/-- Counterexample to C7 as stated: on a 25-character string,
`OverlapChunker.chunk 10 3` produces four chunks, not three. -/
theorem C7_counterexample :
    ("abcdefghijklmnopqrstuvwxy".data).length = 25 ∧
    (OverlapChunker.chunk 10 3 "abcdefghijklmnopqrstuvwxy".data).length = 4 ∧
    (OverlapChunker.chunk 10 3 "abcdefghijklmnopqrstuvwxy".data).length ≠ 3 := by
  refine ⟨by decide, by decide, by decide⟩

/-- Counterexample to C8 as stated: with `target_size = 10 > max_size = 5`
(an invalid configuration) the sentence chunker does not abort: it
processes the text and returns chunks. -/
theorem C8_counterexample :
    (5 : Nat) < 10 ∧
    SentenceAwareChunker.chunk 10 5 "ab. cd.".data = ["ab.".data, "cd.".data] ∧
    SentenceAwareChunker.chunk 10 5 "ab. cd.".data ≠ [] := by
  refine ⟨by decide, by decide, by decide⟩

lemma mem_semanticBreakProbs (chunks : List (List Char)) (j : Nat) (p : ChunkProblem)
    (hp : p ∈ semanticBreakProbs chunks j) :
    p.chunk_index = j ∧ p.problem_type = "Semantic Break".data ∧
      (0 < j ∧ endsWithAny (pyRStrip (chunks.getD (j - 1) [])) sentence_endings = false) := by
  rw [semanticBreakProbs] at hp
  split_ifs at hp with hc
  · rw [List.mem_singleton] at hp
    rw [hp]
    exact ⟨rfl, rfl, hc⟩
  · simp at hp

lemma mem_referenceLossProbs (chunks : List (List Char)) (j : Nat) (p : ChunkProblem)
    (hp : p ∈ referenceLossProbs chunks j) :
    p.problem_type = "Reference Loss".data := by
  rw [referenceLossProbs, List.mem_filterMap] at hp
  obtain ⟨phrase, _, heq⟩ := hp
  split_ifs at heq
  rw [Option.some_inj] at heq
  rw [← heq]

lemma mem_structuralProbs (chunks : List (List Char)) (j : Nat) (p : ChunkProblem)
    (hp : p ∈ structuralProbs chunks j) :
    p.problem_type = "Structural Destruction".data := by
  rw [structuralProbs] at hp
  split_ifs at hp
  · rw [List.mem_singleton] at hp
    rw [hp]
  · simp at hp

/-- C9: the analyzer emits a Semantic Break problem for chunk `i` exactly
when `i > 0` and the right-stripped previous chunk does not end in `.`,
`!` or `?`; and on `["Para ends mid", "sentence. Next."]` it returns
exactly one problem, a Semantic Break at index 1. -/
theorem C9_semantic_break (chunks : List (List Char)) (i : Nat) (hi : i < chunks.length) :
    ((∃ p ∈ ChunkAnalyzer.analyze_chunks chunks,
        p.problem_type = "Semantic Break".data ∧ p.chunk_index = i) ↔
      (0 < i ∧ endsWithAny (pyRStrip (chunks.getD (i - 1) [])) sentence_endings = false)) ∧
    ChunkAnalyzer.analyze_chunks ["Para ends mid".data, "sentence. Next.".data] =
      [⟨1, "Semantic Break".data, "Chunk starts mid-sentence".data,
        "sentence. Next....".data⟩] := by
  constructor
  · constructor
    · rintro ⟨p, hp, htype, hidx⟩
      rw [ChunkAnalyzer.analyze_chunks, List.mem_flatMap] at hp
      obtain ⟨j, _, hpj⟩ := hp
      rw [analyzeAt] at hpj
      rcases List.mem_append.1 hpj with hpj | hpj
      rcases List.mem_append.1 hpj with hpj | hpj
      · obtain ⟨hidx2, _, hcond⟩ := mem_semanticBreakProbs chunks j p hpj
        rw [hidx] at hidx2
        rw [← hidx2] at hcond
        exact hcond
      · rw [mem_referenceLossProbs chunks j p hpj] at htype
        exact absurd htype (by decide)
      · rw [mem_structuralProbs chunks j p hpj] at htype
        exact absurd htype (by decide)
    · intro hcond
      refine ⟨⟨i, "Semantic Break".data, "Chunk starts mid-sentence".data,
        (chunks.getD i []).take 50 ++ "...".data⟩, ?_, rfl, rfl⟩
      rw [ChunkAnalyzer.analyze_chunks, List.mem_flatMap]
      refine ⟨i, List.mem_range.2 hi, ?_⟩
      rw [analyzeAt]
      apply List.mem_append.2
      left
      apply List.mem_append.2
      left
      rw [semanticBreakProbs, if_pos hcond]
      exact List.mem_singleton.2 rfl
  · decide

/-- Witness for C9 at the Scenario D input. -/
theorem C9_witness :
    1 < 2 ∧
    ((∃ p ∈ ChunkAnalyzer.analyze_chunks ["Para ends mid".data, "sentence. Next.".data],
        p.problem_type = "Semantic Break".data ∧ p.chunk_index = 1) ↔
      (0 < 1 ∧ endsWithAny (pyRStrip
        ((["Para ends mid".data, "sentence. Next.".data] : List (List Char)).getD 0 []))
        sentence_endings = false)) :=
  ⟨by decide,
   (C9_semantic_break ["Para ends mid".data, "sentence. Next.".data] 1 (by decide)).1⟩

lemma nonWsOf_nil : nonWsOf [] = [] := rfl

lemma nonWsOf_space : nonWsOf [' '] = [] := by decide

lemma nonWsOf_cons_space (s : List Char) : nonWsOf (' ' :: s) = nonWsOf s := by
  simp [nonWsOf, List.filter_cons, isPySpace]

lemma nonWsOf_cons_nl (s : List Char) : nonWsOf ('\n' :: s) = nonWsOf s := by
  simp [nonWsOf, List.filter_cons, isPySpace]

lemma nonWsOf_nls : nonWsOf ['\n', '\n'] = [] := by decide

lemma nonWsOf_append (a b : List Char) : nonWsOf (a ++ b) = nonWsOf a ++ nonWsOf b :=
  List.filter_append a b

lemma nonWsOf_reverse (l : List Char) : nonWsOf l.reverse = (nonWsOf l).reverse :=
  List.filter_reverse _ l

lemma nonWsOf_cons_ws (c : Char) (l : List Char) (hc : isPySpace c = true) :
    nonWsOf (c :: l) = nonWsOf l := by
  simp [nonWsOf, List.filter_cons, hc]

lemma nonWsOf_cons (c : Char) (l : List Char) :
    nonWsOf (c :: l) = nonWsOf [c] ++ nonWsOf l := by
  simp only [nonWsOf, List.filter_cons]
  split_ifs <;> simp

lemma nonWsOf_dropWhile (l : List Char) :
    nonWsOf (l.dropWhile isPySpace) = nonWsOf l := by
  induction l with
  | nil => rfl
  | cons c l ih =>
    rw [List.dropWhile_cons]
    split_ifs with hc
    · rw [ih, nonWsOf_cons_ws c l hc]
    · rfl

lemma nonWsOf_pyStrip (l : List Char) : nonWsOf (pyStrip l) = nonWsOf l := by
  rw [pyStrip, nonWsOf_reverse, nonWsOf_dropWhile, nonWsOf_reverse,
    nonWsOf_dropWhile, List.reverse_reverse]

lemma sentGo_flatten (l : List Char) :
    ∀ (skipping : Bool) (acc : List Char),
      nonWsOf (sentGo skipping acc l).flatten = nonWsOf acc.reverse ++ nonWsOf l := by
  induction l with
  | nil =>
    intro skipping acc
    simp [sentGo, nonWsOf_nil]
  | cons c rest ih =>
    intro skipping acc
    rw [sentGo]
    split_ifs with h1 h2
    · rw [ih true acc]
      rw [Bool.and_eq_true] at h1
      rw [nonWsOf_cons_ws c rest h1.2]
    · rw [List.flatten_cons, nonWsOf_append, ih true []]
      simp only [List.reverse_cons, List.reverse_nil, nonWsOf_nil, nonWsOf_append,
        List.nil_append, List.append_assoc]
      rw [nonWsOf_cons c rest]
    · rw [ih false (c :: acc)]
      simp only [List.reverse_cons, nonWsOf_append, List.append_assoc]
      rw [nonWsOf_cons c rest]

lemma sentSplit_flatten (text : List Char) :
    nonWsOf (sentSplit text).flatten = nonWsOf text := by
  rw [sentSplit, sentGo_flatten text false []]
  rfl

lemma paraGo_flatten (l : List Char) :
    ∀ (skipping : Bool) (acc : List Char),
      nonWsOf (paraGo skipping acc l).flatten = nonWsOf acc.reverse ++ nonWsOf l := by
  induction l with
  | nil =>
    intro skipping acc
    simp [paraGo, nonWsOf_nil]
  | cons c rest ih =>
    intro skipping acc
    rw [paraGo]
    split_ifs with h1 h2
    · rw [ih true acc]
      rw [Bool.and_eq_true] at h1
      have hc : c = '\n' := of_decide_eq_true h1.2
      rw [nonWsOf_cons_ws c rest (by rw [hc]; decide)]
    · rw [List.flatten_cons, nonWsOf_append, ih true []]
      rw [Bool.and_eq_true] at h2
      have hc : c = '\n' := of_decide_eq_true h2.1
      simp only [List.reverse_nil, nonWsOf_nil, List.nil_append, List.append_assoc]
      rw [nonWsOf_cons_ws c rest (by rw [hc]; decide)]
    · rw [ih false (c :: acc)]
      simp only [List.reverse_cons, nonWsOf_append, List.append_assoc]
      rw [nonWsOf_cons c rest]

lemma paraSplit_flatten (text : List Char) :
    nonWsOf (paraSplit text).flatten = nonWsOf text := by
  rw [paraSplit, paraGo_flatten text false []]
  rfl

lemma scStep_flatten (target maxs : Nat) (st : List (List Char) × List Char) (s : List Char) :
    nonWsOf ((scStep target maxs st s).1.flatten ++ (scStep target maxs st s).2)
      = nonWsOf (st.1.flatten ++ st.2) ++ nonWsOf s := by
  rw [scStep]
  split_ifs with h1 h2 h3 h4 h5
  · simp [List.flatten_append, nonWsOf_append, nonWsOf_pyStrip, List.append_assoc]
  · rw [h3]
    simp [nonWsOf_append, nonWsOf_nil]
  · simp [nonWsOf_append, nonWsOf_space, nonWsOf_cons_space, List.append_assoc]
  · simp [nonWsOf_append, nonWsOf_space, nonWsOf_cons_space, List.append_assoc]
  · simp [List.flatten_append, nonWsOf_append, nonWsOf_pyStrip, List.append_assoc]
  · push_neg at h5
    rw [h5]
    simp [nonWsOf_append, nonWsOf_nil]

lemma scFold_flatten (target maxs : Nat) (l : List (List Char)) :
    ∀ st : List (List Char) × List Char,
      nonWsOf ((l.foldl (scStep target maxs) st).1.flatten
          ++ (l.foldl (scStep target maxs) st).2)
        = nonWsOf (st.1.flatten ++ st.2) ++ nonWsOf l.flatten := by
  induction l with
  | nil => intro st; simp [nonWsOf_nil]
  | cons s l ih =>
    intro st
    rw [List.foldl_cons, ih (scStep target maxs st s), scStep_flatten,
      List.flatten_cons, nonWsOf_append, List.append_assoc, nonWsOf_append]

lemma sentChunk_flatten (target maxs : Nat) (text : List Char) :
    nonWsOf (SentenceAwareChunker.chunk target maxs text).flatten = nonWsOf text := by
  rw [SentenceAwareChunker.chunk]
  have h := scFold_flatten target maxs (sentSplit text) ([], [])
  simp only [List.flatten_nil, List.nil_append, nonWsOf_nil] at h
  rw [sentSplit_flatten] at h
  split_ifs with hne
  · rw [List.flatten_append, List.flatten_cons, List.flatten_nil, List.append_nil,
      nonWsOf_append, nonWsOf_pyStrip, ← nonWsOf_append, h]
  · push_neg at hne
    rw [← h, hne, List.append_nil]

lemma pcInnerStep_flatten (target : Nat) (st : List (List Char) × List Char) (pc : List Char) :
    nonWsOf ((pcInnerStep target st pc).1.flatten ++ (pcInnerStep target st pc).2)
      = nonWsOf (st.1.flatten ++ st.2) ++ nonWsOf pc := by
  rw [pcInnerStep]
  split_ifs with h1 h2 h3
  · rw [h2]
    simp [nonWsOf_append, nonWsOf_nil]
  · simp [nonWsOf_append, nonWsOf_nls, nonWsOf_cons_nl, List.append_assoc]
  · simp [List.flatten_append, nonWsOf_append, List.append_assoc]
  · push_neg at h3
    rw [h3]
    simp [nonWsOf_append, nonWsOf_nil]

lemma pcFold_flatten (target : Nat) (l : List (List Char)) :
    ∀ st : List (List Char) × List Char,
      nonWsOf ((l.foldl (pcInnerStep target) st).1.flatten
          ++ (l.foldl (pcInnerStep target) st).2)
        = nonWsOf (st.1.flatten ++ st.2) ++ nonWsOf l.flatten := by
  induction l with
  | nil => intro st; simp [nonWsOf_nil]
  | cons pc l ih =>
    intro st
    rw [List.foldl_cons, ih (pcInnerStep target st pc), pcInnerStep_flatten,
      List.flatten_cons, nonWsOf_append, List.append_assoc, nonWsOf_append]

lemma paStep_flatten (target : Nat) (st : List (List Char) × List Char) (para : List Char) :
    nonWsOf ((paStep target st para).1.flatten ++ (paStep target st para).2)
      = nonWsOf (st.1.flatten ++ st.2) ++ nonWsOf para := by
  rw [paStep]
  split_ifs with h1 h2 h3 h4
  · have : nonWsOf para = [] := by
      rw [← nonWsOf_pyStrip, h1, nonWsOf_nil]
    rw [this, List.append_nil]
  · rw [pcFold_flatten target (SentenceAwareChunker.chunk target 1200 (pyStrip para)) st,
      sentChunk_flatten, nonWsOf_pyStrip]
  · rw [h4]
    simp [nonWsOf_append, nonWsOf_nil, nonWsOf_pyStrip]
  · simp [nonWsOf_append, nonWsOf_nls, nonWsOf_cons_nl, nonWsOf_pyStrip, List.append_assoc]
  · simp [List.flatten_append, nonWsOf_append, nonWsOf_pyStrip, List.append_assoc]
  · rename_i h5
    push_neg at h5
    rw [h5]
    simp [nonWsOf_append, nonWsOf_nil, nonWsOf_pyStrip]

lemma paFold_flatten (target : Nat) (l : List (List Char)) :
    ∀ st : List (List Char) × List Char,
      nonWsOf ((l.foldl (paStep target) st).1.flatten ++ (l.foldl (paStep target) st).2)
        = nonWsOf (st.1.flatten ++ st.2) ++ nonWsOf l.flatten := by
  induction l with
  | nil => intro st; simp [nonWsOf_nil]
  | cons para l ih =>
    intro st
    rw [List.foldl_cons, ih (paStep target st para), paStep_flatten,
      List.flatten_cons, nonWsOf_append, List.append_assoc, nonWsOf_append]

lemma paraChunk_flatten (target : Nat) (text : List Char) :
    nonWsOf (ParagraphAwareChunker.chunk target text).flatten = nonWsOf text := by
  rw [ParagraphAwareChunker.chunk]
  have h := paFold_flatten target (paraSplit text) ([], [])
  simp only [List.flatten_nil, List.nil_append, nonWsOf_nil] at h
  rw [paraSplit_flatten] at h
  split_ifs with hne
  · rw [List.flatten_append, List.flatten_cons, List.flatten_nil, List.append_nil]
    exact h
  · push_neg at hne
    rw [← h, hne, List.append_nil]

lemma naiveGo_flatten :
    ∀ (fuel size : Nat) (text : List Char), 1 ≤ size → text.length ≤ fuel →
      (naiveGo fuel size text).flatten = text := by
  intro fuel
  induction fuel with
  | zero =>
    intro size text h1 h2
    have : text = [] := List.length_eq_zero.1 (Nat.le_zero.1 h2)
    rw [this]
    rfl
  | succ fuel ih =>
    intro size text h1 h2
    cases text with
    | nil => rfl
    | cons c cs =>
      have hd : ((c :: cs).drop size).length ≤ fuel := by
        rw [List.length_drop, List.length_cons]
        rw [List.length_cons] at h2
        omega
      rw [naiveGo, List.flatten_cons, ih size ((c :: cs).drop size) h1 hd,
        List.take_append_drop]

/-- C4: concatenating the chunks of `NaiveChunker.chunk` reproduces the
text exactly; for `SentenceAwareChunker.chunk` and
`ParagraphAwareChunker.chunk` the concatenation reproduces the text's
non-whitespace content exactly, in order. -/
theorem C4_roundtrip :
    (∀ (size : Nat) (text : List Char), 1 ≤ size →
      (NaiveChunker.chunk size text).flatten = text) ∧
    (∀ (target maxs : Nat) (text : List Char),
      nonWsOf (SentenceAwareChunker.chunk target maxs text).flatten = nonWsOf text) ∧
    (∀ (target : Nat) (text : List Char),
      nonWsOf (ParagraphAwareChunker.chunk target text).flatten = nonWsOf text) :=
  ⟨fun size text h1 => naiveGo_flatten text.length size text h1 (Nat.le_refl _),
   sentChunk_flatten, paraChunk_flatten⟩

/-- Witness for C4 at a concrete input. -/
theorem C4_witness :
    1 ≤ 3 ∧ (NaiveChunker.chunk 3 "abcdefgh".data).flatten = "abcdefgh".data :=
  ⟨by decide, C4_roundtrip.1 3 "abcdefgh".data (by decide)⟩

lemma foldl_flatMap {α β σ : Type} (f : σ → β → σ) (g : α → List β) (l : List α) (init : σ) :
    (l.flatMap g).foldl f init = l.foldl (fun st a => (g a).foldl f st) init := by
  induction l generalizing init with
  | nil => rfl
  | cons a l ih => rw [List.flatMap_cons, List.foldl_append, List.foldl_cons, ih]

lemma paStep_eq_pieces (target : Nat) (st : List (List Char) × List Char) (para : List Char) :
    paStep target st para = (paraPieceOf target para).foldl (pcInnerStep target) st := by
  rw [paStep, paraPieceOf]
  by_cases h1 : pyStrip para = []
  · rw [if_pos h1, if_pos h1, List.foldl_nil]
  · rw [if_neg h1, if_neg h1]
    by_cases h2 : target < (pyStrip para).length
    · rw [if_pos h2, if_pos h2]
    · rw [if_neg h2, if_neg h2, List.foldl_cons, List.foldl_nil, pcInnerStep]

/-- C5 amended: the oversized-paragraph fallback of
`ParagraphAwareChunker.chunk` invokes the sentence splitter with
`target_size` as the target size and the Python default `1200` as the
hard maximum size, and merges each resulting sentence-chunk (and each
whole non-oversized paragraph) into the running accumulator with the
same fit-or-flush rule. -/
theorem C5_amended_fallback (target : Nat) (text : List Char) :
    ParagraphAwareChunker.chunk target text = paraChunkViaPieces target text := by
  rw [ParagraphAwareChunker.chunk, paraChunkViaPieces, foldl_flatMap]
  rw [show (fun (st : List (List Char) × List Char) (a : List Char) =>
      (paraPieceOf target a).foldl (pcInnerStep target) st) = paStep target from
    funext fun st => funext fun a => (paStep_eq_pieces target st a).symm]

lemma naiveChunk_empty (size : Nat) : NaiveChunker.chunk size [] = [] := rfl

lemma naiveChunk_ne (size : Nat) (text : List Char) (ht : text ≠ []) :
    NaiveChunker.chunk size text ≠ [] := by
  cases text with
  | nil => exact absurd rfl ht
  | cons c cs =>
    rw [NaiveChunker.chunk, List.length_cons, naiveGo]
    exact List.cons_ne_nil _ _

lemma sentChunk_empty (target maxs : Nat) : SentenceAwareChunker.chunk target maxs [] = [] := by
  simp [SentenceAwareChunker.chunk, sentSplit, sentGo, scStep]

lemma sentGo_shape (l : List Char) :
    ∀ (skipping : Bool) (acc : List Char),
      ∃ h t, sentGo skipping acc l = (acc.reverse ++ h) :: t := by
  induction l with
  | nil =>
    intro skipping acc
    exact ⟨[], [], by simp [sentGo]⟩
  | cons c rest ih =>
    intro skipping acc
    rw [sentGo]
    split_ifs
    · exact ih true acc
    · exact ⟨[c], sentGo true [] rest, by rw [List.reverse_cons]⟩
    · obtain ⟨h, t, heq⟩ := ih false (c :: acc)
      refine ⟨c :: h, t, ?_⟩
      rw [heq, List.reverse_cons, List.append_assoc]
      rfl

lemma sentSplit_head (text : List Char) (ht : text ≠ []) :
    ∃ s t, sentSplit text = s :: t ∧ s ≠ [] := by
  cases text with
  | nil => exact absurd rfl ht
  | cons c rest =>
    rw [sentSplit, sentGo]
    split_ifs with h1 h2
    · simp at h1
    · exact ⟨[c], sentGo true [] rest, rfl, List.cons_ne_nil _ _⟩
    · obtain ⟨h, t, heq⟩ := sentGo_shape rest false [c]
      refine ⟨c :: h, t, ?_, List.cons_ne_nil _ _⟩
      rw [heq]
      rfl

lemma scStep_init_ne (target maxs : Nat) (s : List Char) (hs : s ≠ []) :
    (scStep target maxs ([], []) s).2 ≠ [] := by
  rw [scStep]
  split_ifs <;> simp_all

lemma scFold_ne (target maxs : Nat) (l : List (List Char)) :
    ∀ st : List (List Char) × List Char, st.1 ≠ [] ∨ st.2 ≠ [] →
      ((l.foldl (scStep target maxs) st).1 ≠ [] ∨ (l.foldl (scStep target maxs) st).2 ≠ []) := by
  induction l with
  | nil => exact fun st h => h
  | cons s l ih =>
    intro st h
    rw [List.foldl_cons]
    apply ih
    rw [scStep]
    split_ifs with h1 h2 h3 h4 h5
    · left
      simp
    · rcases h with h | h
      · left
        exact h
      · exact absurd h3 h
    · right
      simp
    · right
      simp
    · left
      simp
    · push_neg at h5
      rcases h with h | h
      · left
        exact h
      · exact absurd h5 h
  
lemma sentChunk_ne (target maxs : Nat) (text : List Char) (ht : text ≠ []) :
    SentenceAwareChunker.chunk target maxs text ≠ [] := by
  obtain ⟨s, t, hsplit, hs⟩ := sentSplit_head text ht
  rw [SentenceAwareChunker.chunk, hsplit, List.foldl_cons]
  have h := scFold_ne target maxs t (scStep target maxs ([], []) s)
    (Or.inr (scStep_init_ne target maxs s hs))
  split_ifs with hne
  · simp
  · push_neg at hne
    rcases h with h | h
    · exact h
    · exact absurd hne h

lemma pyStrip_eq_nil_of_nonWs (p : List Char) (h : nonWsOf p = []) : pyStrip p = [] := by
  have hall : ∀ c ∈ p, isPySpace c = true := by
    intro c hc
    simpa using List.filter_eq_nil_iff.1 h c hc
  rw [pyStrip, List.dropWhile_eq_nil_iff.2 hall]
  rfl

lemma nonWs_flatten_nil (L : List (List Char)) (h : nonWsOf L.flatten = []) :
    ∀ p ∈ L, nonWsOf p = [] := by
  induction L with
  | nil => simp
  | cons p L ih =>
    rw [List.flatten_cons, nonWsOf_append] at h
    have h2 := List.append_eq_nil.1 h
    intro q hq
    rcases List.mem_cons.1 hq with hq | hq
    · rw [hq]
      exact h2.1
    · exact ih h2.2 q hq

lemma paFold_allws (target : Nat) (l : List (List Char)) (hl : ∀ p ∈ l, pyStrip p = []) :
    ∀ st : List (List Char) × List Char, l.foldl (paStep target) st = st := by
  induction l with
  | nil => exact fun st => rfl
  | cons para l ih =>
    intro st
    rw [List.foldl_cons]
    have hpa : paStep target st para = st := by
      rw [paStep, if_pos (hl para (List.mem_cons_self para l))]
    rw [hpa]
    exact ih (fun p hp => hl p (List.mem_cons_of_mem para hp)) st

lemma paraChunk_empty_iff (target : Nat) (text : List Char) :
    ParagraphAwareChunker.chunk target text = [] ↔ nonWsOf text = [] := by
  constructor
  · intro h
    have hf := paraChunk_flatten target text
    rw [h] at hf
    exact hf.symm
  · intro h
    have hpieces : ∀ p ∈ paraSplit text, pyStrip p = [] := by
      intro p hp
      refine pyStrip_eq_nil_of_nonWs p (nonWs_flatten_nil (paraSplit text) ?_ p hp)
      rw [paraSplit_flatten]
      exact h
    rw [ParagraphAwareChunker.chunk, paFold_allws target (paraSplit text) hpieces ([], [])]
    rfl

/-- C6 amended: `NaiveChunker.chunk` and `SentenceAwareChunker.chunk`
return a non-empty chunk sequence for every non-empty text and an empty
sequence for the empty text; `ParagraphAwareChunker.chunk` returns an
empty sequence exactly when the text has no non-whitespace character
(so also for non-empty whitespace-only text). -/
theorem C6_amended_nonempty :
    (∀ size : Nat, 1 ≤ size → NaiveChunker.chunk size [] = []) ∧
    (∀ (size : Nat) (text : List Char), 1 ≤ size → text ≠ [] →
      NaiveChunker.chunk size text ≠ []) ∧
    (∀ target maxs : Nat, 1 ≤ target → target ≤ maxs →
      SentenceAwareChunker.chunk target maxs [] = []) ∧
    (∀ (target maxs : Nat) (text : List Char), 1 ≤ target → target ≤ maxs → text ≠ [] →
      SentenceAwareChunker.chunk target maxs text ≠ []) ∧
    (∀ (target : Nat) (text : List Char), 1 ≤ target →
      (ParagraphAwareChunker.chunk target text = [] ↔ nonWsOf text = [])) :=
  ⟨fun size _ => naiveChunk_empty size,
   fun size text _ ht => naiveChunk_ne size text ht,
   fun target maxs _ _ => sentChunk_empty target maxs,
   fun target maxs text _ _ ht => sentChunk_ne target maxs text ht,
   fun target text _ => paraChunk_empty_iff target text⟩

/-- Witness for C6 at concrete inputs. -/
theorem C6_witness :
    1 ≤ 2 ∧ 2 ≤ 3 ∧ "hi.".data ≠ ([] : List Char) ∧
      SentenceAwareChunker.chunk 2 3 "hi.".data ≠ [] :=
  ⟨by decide, by decide, by decide,
   C6_amended_nonempty.2.2.2.1 2 3 "hi.".data (by decide) (by decide) (by decide)⟩

/-- C8 amended: no size-constraint validation exists in
`SentenceAwareChunker`: a call with `target_size > max_size` is not
rejected and does not abort; it processes the whole text with the given
parameters, returning a non-empty chunk sequence that carries exactly
the text's non-whitespace content, for every non-empty text. -/
theorem C8_amended_no_validation (target maxs : Nat) (text : List Char)
    (hinv : maxs < target) (ht : text ≠ []) :
    SentenceAwareChunker.chunk target maxs text ≠ [] ∧
      nonWsOf (SentenceAwareChunker.chunk target maxs text).flatten = nonWsOf text :=
  ⟨sentChunk_ne target maxs text ht, sentChunk_flatten target maxs text⟩

/-- Witness for C8 at a concrete invalid configuration. -/
theorem C8_witness :
    (5 : Nat) < 10 ∧ "ab. cd.".data ≠ ([] : List Char) ∧
      (SentenceAwareChunker.chunk 10 5 "ab. cd.".data ≠ [] ∧
        nonWsOf (SentenceAwareChunker.chunk 10 5 "ab. cd.".data).flatten
          = nonWsOf "ab. cd.".data) :=
  ⟨by decide, by decide,
   C8_amended_no_validation 10 5 "ab. cd.".data (by decide) (by decide)⟩

lemma overlapGo_step (fuel width overlap : Nat) (text : List Char) (start : Nat) :
    overlapGo (fuel + 1) width overlap text start =
      if start < text.length then
        if min (start + width) text.length = text.length then
          [(text.drop start).take (min (start + width) text.length - start)]
        else
          (text.drop start).take (min (start + width) text.length - start) ::
            overlapGo fuel width overlap text (min (start + width) text.length - overlap)
      else [] := rfl

lemma overlapGo_head (width overlap : Nat) (text : List Char) (fuel start : Nat)
    (hs : start < text.length) :
    ∃ t, overlapGo (fuel + 1) width overlap text start
      = (text.drop start).take (min (start + width) text.length - start) :: t := by
  rw [overlapGo_step, if_pos hs]
  by_cases he : min (start + width) text.length = text.length
  · exact ⟨[], by rw [if_pos he]⟩
  · exact ⟨_, by rw [if_neg he]⟩

lemma overlapGo_adj (width overlap : Nat) (hov : overlap < width) (text : List Char) :
    ∀ fuel start, text.length - start < fuel →
      ∀ i, i + 1 < (overlapGo fuel width overlap text start).length →
        lastN overlap ((overlapGo fuel width overlap text start).getD i [])
          = List.take overlap ((overlapGo fuel width overlap text start).getD (i + 1) []) := by
  intro fuel
  induction fuel with
  | zero =>
    intro start hf i hi
    simp [overlapGo] at hi
  | succ fuel ih =>
    intro start hf i hi
    rw [overlapGo_step] at hi ⊢
    by_cases hs : start < text.length
    · rw [if_pos hs] at hi ⊢
      by_cases he : min (start + width) text.length = text.length
      · rw [if_pos he] at hi
        simp at hi
      · rw [if_neg he] at hi ⊢
        have hlt : start + width < text.length := by
          rcases Nat.lt_or_ge (start + width) text.length with h | h
          · exact h
          · exact absurd (Nat.min_eq_right h) he
        have hmin : min (start + width) text.length = start + width :=
          Nat.min_eq_left (Nat.le_of_lt hlt)
        rw [hmin] at hi ⊢
        have hs' : start + width - overlap < text.length := by omega
        have hf' : text.length - (start + width - overlap) < fuel := by omega
        cases i with
        | zero =>
          cases fuel with
          | zero => omega
          | succ fuel2 =>
            obtain ⟨t, ht⟩ := overlapGo_head width overlap text fuel2 (start + width - overlap) hs'
            rw [ht]
            simp only [List.getD_cons_zero, List.getD_cons_succ]
            have hw : start + width - start = width := by omega
            rw [hw, lastN]
            have hlc : ((text.drop start).take width).length = width := by
              rw [List.length_take, List.length_drop]
              omega
            rw [hlc, List.drop_take, List.drop_drop]
            have h1 : width - (width - overlap) = overlap := by omega
            have h2 : start + (width - overlap) = start + width - overlap := by omega
            rw [h1, h2, List.take_take]
            have h3 : overlap ⊓ (min (start + width - overlap + width) text.length
                - (start + width - overlap)) = overlap := by omega
            rw [h3]
        | succ i =>
          simp only [List.getD_cons_succ]
          apply ih (start + width - overlap) hf' i
          simpa using hi
    · rw [if_neg hs] at hi
      simp at hi

lemma overlapChunk_single (width overlap : Nat) (text : List Char) (h0 : text ≠ [])
    (hw : text.length ≤ width) : OverlapChunker.chunk width overlap text = [text] := by
  rw [OverlapChunker.chunk, overlapGo_step]
  have hlen : 0 < text.length := List.length_pos.2 h0
  have hmin : min (0 + width) text.length = text.length := by omega
  rw [if_pos hlen, if_pos hmin, hmin]
  simp

lemma overlapChunk_nil (width overlap : Nat) : OverlapChunker.chunk width overlap [] = [] := by
  rw [OverlapChunker.chunk, overlapGo_step]
  simp

/-- C2 amended: for `0 ≤ overlap < width` every adjacent chunk pair of
`OverlapChunker.chunk` shares exactly `overlap` characters (last
`overlap` of one = first `overlap` of the next); a non-empty text of
length at most `width` yields exactly one chunk; the empty text yields
an empty chunk list. -/
theorem C2_amended_overlap (text : List Char) (width overlap : Nat) (hov : overlap < width) :
    (∀ i, i + 1 < (OverlapChunker.chunk width overlap text).length →
      lastN overlap ((OverlapChunker.chunk width overlap text).getD i [])
        = List.take overlap ((OverlapChunker.chunk width overlap text).getD (i + 1) [])) ∧
    (text ≠ [] → text.length ≤ width → OverlapChunker.chunk width overlap text = [text]) ∧
    (text = [] → OverlapChunker.chunk width overlap text = []) := by
  refine ⟨?_, fun h0 hw => overlapChunk_single width overlap text h0 hw,
    fun h0 => by rw [h0]; exact overlapChunk_nil width overlap⟩
  intro i hi
  exact overlapGo_adj width overlap hov text (text.length + 1) 0 (by omega) i hi

/-- Witness for C2 at a concrete input. -/
theorem C2_witness :
    (1 : Nat) < 3 ∧
    ((∀ i, i + 1 < (OverlapChunker.chunk 3 1 "abcde".data).length →
      lastN 1 ((OverlapChunker.chunk 3 1 "abcde".data).getD i [])
        = List.take 1 ((OverlapChunker.chunk 3 1 "abcde".data).getD (i + 1) [])) ∧
    ("abcde".data ≠ [] → "abcde".data.length ≤ 3 →
      OverlapChunker.chunk 3 1 "abcde".data = ["abcde".data]) ∧
    ("abcde".data = [] → OverlapChunker.chunk 3 1 "abcde".data = [])) :=
  ⟨by decide, C2_amended_overlap "abcde".data 3 1 (by decide)⟩

lemma overlapChunk_25 (text : List Char) (hlen : text.length = 25) :
    OverlapChunker.chunk 10 3 text
      = [(text.drop 0).take 10, (text.drop 7).take 10, (text.drop 14).take 10,
         (text.drop 21).take 4] := by
  have s1 : overlapGo 26 10 3 text 0 = (text.drop 0).take 10 :: overlapGo 25 10 3 text 7 := by
    rw [show (26 : Nat) = 25 + 1 from rfl, overlapGo_step, hlen]
    norm_num [Nat.min_def]
  have s2 : overlapGo 25 10 3 text 7 = (text.drop 7).take 10 :: overlapGo 24 10 3 text 14 := by
    rw [show (25 : Nat) = 24 + 1 from rfl, overlapGo_step, hlen]
    norm_num [Nat.min_def]
  have s3 : overlapGo 24 10 3 text 14 = (text.drop 14).take 10 :: overlapGo 23 10 3 text 21 := by
    rw [show (24 : Nat) = 23 + 1 from rfl, overlapGo_step, hlen]
    norm_num [Nat.min_def]
  have s4 : overlapGo 23 10 3 text 21 = [(text.drop 21).take 4] := by
    rw [show (23 : Nat) = 22 + 1 from rfl, overlapGo_step, hlen]
    norm_num [Nat.min_def]
  rw [OverlapChunker.chunk, hlen, s1, s2, s3, s4]

/-- C7 amended: `OverlapChunker.chunk` with `chunk_size = 10` and
`overlap = 3` on a 25-character string yields four chunks of lengths
10, 10, 10 and 4, with the last 3 characters of chunk 0 equal to the
first 3 characters of chunk 1. -/
theorem C7_amended_scenarioC (text : List Char) (hlen : text.length = 25) :
    (OverlapChunker.chunk 10 3 text).map List.length = [10, 10, 10, 4] ∧
    lastN 3 ((OverlapChunker.chunk 10 3 text).getD 0 [])
      = List.take 3 ((OverlapChunker.chunk 10 3 text).getD 1 []) := by
  rw [overlapChunk_25 text hlen]
  constructor
  · simp [List.length_take, List.length_drop, hlen]
  · simp only [List.getD_cons_zero, List.getD_cons_succ]
    rw [lastN]
    have hlc : ((text.drop 0).take 10).length = 10 := by
      rw [List.length_take, List.length_drop, hlen]
      omega
    rw [hlc]
    norm_num
    rw [List.take_take]
    norm_num [Nat.min_def]
    rw [List.drop_take]

/-- Witness for C7 at a concrete 25-character string. -/
theorem C7_witness :
    ("abcdefghijklmnopqrstuvwxy".data.length = 25) ∧
    ((OverlapChunker.chunk 10 3 "abcdefghijklmnopqrstuvwxy".data).map List.length
        = [10, 10, 10, 4] ∧
      lastN 3 ((OverlapChunker.chunk 10 3 "abcdefghijklmnopqrstuvwxy".data).getD 0 [])
        = List.take 3 ((OverlapChunker.chunk 10 3 "abcdefghijklmnopqrstuvwxy".data).getD 1 [])) :=
  ⟨by decide, C7_amended_scenarioC "abcdefghijklmnopqrstuvwxy".data (by decide)⟩

lemma length_dropWhile_le (p : Char → Bool) (l : List Char) :
    (l.dropWhile p).length ≤ l.length := by
  induction l with
  | nil => simp
  | cons c l ih =>
    rw [List.dropWhile_cons]
    split_ifs
    · exact le_trans ih (by simp)
    · simp

lemma pyStrip_length_le (l : List Char) : (pyStrip l).length ≤ l.length := by
  rw [pyStrip, List.length_reverse]
  calc ((l.dropWhile isPySpace).reverse.dropWhile isPySpace).length
      ≤ (l.dropWhile isPySpace).reverse.length := length_dropWhile_le _ _
    _ = (l.dropWhile isPySpace).length := List.length_reverse _
    _ ≤ l.length := length_dropWhile_le _ _

lemma flush_ok (maxs : Nat) (sents : List (List Char)) (st2 : List Char)
    (hcur : st2.length ≤ maxs + 1 ∨ st2 ∈ sents) :
    (pyStrip st2).length ≤ maxs + 1 ∨
      ∃ s ∈ sents, pyStrip st2 = pyStrip s ∧ maxs < s.length := by
  rcases hcur with h | h
  · exact Or.inl (le_trans (pyStrip_length_le st2) h)
  · by_cases hlen : st2.length ≤ maxs + 1
    · exact Or.inl (le_trans (pyStrip_length_le st2) hlen)
    · exact Or.inr ⟨st2, h, rfl, by omega⟩

lemma scFold_bound (target maxs : Nat) (h2 : target ≤ maxs) (l : List (List Char))
    (sents : List (List Char)) (hl : ∀ s ∈ l, s ∈ sents) :
    ∀ st : List (List Char) × List Char,
      (∀ c ∈ st.1, c.length ≤ maxs + 1 ∨ ∃ s ∈ sents, c = pyStrip s ∧ maxs < s.length) →
      (st.2.length ≤ maxs + 1 ∨ st.2 ∈ sents) →
      ((∀ c ∈ (l.foldl (scStep target maxs) st).1, c.length ≤ maxs + 1 ∨
          ∃ s ∈ sents, c = pyStrip s ∧ maxs < s.length) ∧
        ((l.foldl (scStep target maxs) st).2.length ≤ maxs + 1 ∨
          (l.foldl (scStep target maxs) st).2 ∈ sents)) := by
  induction l with
  | nil => exact fun st hch hcur => ⟨hch, hcur⟩
  | cons s l ih =>
    intro st hch hcur
    rw [List.foldl_cons]
    have hs : s ∈ sents := hl s (List.mem_cons_self s l)
    apply ih (fun x hx => hl x (List.mem_cons_of_mem s hx))
    · intro c hc
      rw [scStep] at hc
      split_ifs at hc <;> dsimp only at hc
      all_goals try exact hch c hc
      all_goals
        rcases List.mem_append.1 hc with hc2 | hc2
        · exact hch c hc2
        · rw [List.mem_singleton] at hc2
          rw [hc2]
          exact flush_ok maxs sents st.2 hcur
    · rw [scStep]
      split_ifs with ha hb hemp hc' hd <;> dsimp only
      · exact Or.inr hs
      · exact Or.inr hs
      · left
        simp only [List.length_append, List.length_cons, List.length_nil]
        omega
      · left
        simp only [List.length_append, List.length_cons, List.length_nil]
        omega
      · exact Or.inr hs
      · exact Or.inr hs

/-- C1 amended: every chunk of `SentenceAwareChunker.chunk` has length at
most `max_size + 1` (the joining space can overshoot by one), except
that a chunk may be the stripped form of a single sentence whose length
exceeds `max_size`, emitted as its own chunk and never otherwise
truncated. -/
theorem C1_amended_size_bound (target maxs : Nat) (text : List Char)
    (h1 : 0 < target) (h2 : target ≤ maxs) :
    ∀ c ∈ SentenceAwareChunker.chunk target maxs text,
      c.length ≤ maxs + 1 ∨ ∃ s ∈ sentSplit text, c = pyStrip s ∧ maxs < s.length := by
  intro c hc
  rw [SentenceAwareChunker.chunk] at hc
  have hfold := scFold_bound target maxs h2 (sentSplit text) (sentSplit text)
    (fun s hs => hs) ([], []) (by simp) (Or.inl (by simp))
  split_ifs at hc with hne
  · rcases List.mem_append.1 hc with hc | hc
    · exact hfold.1 c hc
    · rw [List.mem_singleton] at hc
      rw [hc]
      exact flush_ok maxs (sentSplit text) _ hfold.2
  · exact hfold.1 c hc

/-- Witness for C1 at a concrete input. -/
theorem C1_witness :
    0 < 3 ∧ 3 ≤ 4 ∧
    "a. b.".data ∈ SentenceAwareChunker.chunk 3 4 "a. b.".data ∧
    ("a. b.".data.length ≤ 4 + 1 ∨
      ∃ s ∈ sentSplit "a. b.".data, "a. b.".data = pyStrip s ∧ 4 < s.length) :=
  ⟨by decide, by decide, by decide,
   C1_amended_size_bound 3 4 "a. b.".data (by decide) (by decide) "a. b.".data (by decide)⟩
